import Mathlib

set_option maxHeartbeats 1000000

/-!
Shallow embedding of the data-loading and depth-completion utilities of the
supervised_depth_correction repository
(src/supervised_depth_correction/data.py and src/depth_completion/utils.py),
together with theorems settling the specification claims about them.

Machine integers are modelled as Nat with explicit truncation where the code
casts; exact numeric values are modelled over the rationals (all the float
operations involved - division and multiplication by powers of two - are exact
on the values in range), and the geodetic conversion, which uses trigonometric
functions and square roots, is modelled over the reals.
-/

-- ===================================================================
-- KITTIRawPoses.gps_to_ecef (data.py, lines 42-62)
-- ===================================================================

noncomputable section

/-- Embedding of the static method `KITTIRawPoses.gps_to_ecef` of data.py for
scalar inputs (the `zero_origin` branch, which only subtracts the first array
element, is not taken by the pose loader).  Note that the source assigns
`z = alt`; the geodetic formula `z = (v * (1 - e2) + alt) * sin(rad_lat)` is
commented out in the source with a TODO note. -/
def gps_to_ecef (lat lon alt : ℝ) : ℝ × ℝ × ℝ :=
  let rad_lat := lat * (Real.pi / 180.0)
  let rad_lon := lon * (Real.pi / 180.0)
  let a : ℝ := 6378137.0
  let finv : ℝ := 298.257223563
  let f := 1 / finv
  let e2 := 1 - (1 - f) * (1 - f)
  let v := a / Real.sqrt (1 - e2 * Real.sin rad_lat * Real.sin rad_lat)
  ((v + alt) * Real.cos rad_lat * Real.cos rad_lon,
   (v + alt) * Real.cos rad_lat * Real.sin rad_lon,
   alt)

/-- Formalisation of the conversion exactly as claim C1 states it: the full
WGS84 Earth-Centered Earth-Fixed conversion, including the geodetic third
coordinate `z = (v * (1 - e2) + alt) * sin(rad_lat)`.  This definition follows
the claim's words and is only used for comparison against the source embedding
`gps_to_ecef`. -/
def gpsToEcefClaimed (lat lon alt : ℝ) : ℝ × ℝ × ℝ :=
  let rad_lat := lat * (Real.pi / 180.0)
  let rad_lon := lon * (Real.pi / 180.0)
  let a : ℝ := 6378137.0
  let f : ℝ := 1 / 298.257223563
  let e2 := 1 - (1 - f) ^ 2
  let v := a / Real.sqrt (1 - e2 * Real.sin rad_lat ^ 2)
  ((v + alt) * Real.cos rad_lat * Real.cos rad_lon,
   (v + alt) * Real.cos rad_lat * Real.sin rad_lon,
   (v * (1 - e2) + alt) * Real.sin rad_lat)

end

-- ===================================================================
-- KITTIRawPoses.get_calibrations (data.py, lines 94-99)
-- ===================================================================

/-- Matrices of homogeneous rigid transforms, entries modelled over ℚ. -/
abbrev Mat4 : Type := Matrix (Fin 4) (Fin 4) ℚ

/-- Embedding of `KITTIRawPoses.get_calibrations` of data.py: the two parsed
calibration matrices are composed as `np.matmul(TrImuToVelo, TrVeloToCam)` and
the product is returned (under the name TrImuToCam0). -/
def get_calibrations (trImuToVelo trVeloToCam : Mat4) : Mat4 :=
  trImuToVelo * trVeloToCam

/-- Concrete imu-to-velo rigid transform: identity rotation and translation by
one unit along x. -/
def imuToVeloEx : Mat4 :=
  Matrix.of ![![1, 0, 0, 1], ![0, 1, 0, 0], ![0, 0, 1, 0], ![0, 0, 0, 1]]

/-- Concrete velo-to-cam rigid transform: rotation by 90 degrees about the z
axis and no translation. -/
def veloToCamEx : Mat4 :=
  Matrix.of ![![0, -1, 0, 0], ![1, 0, 0, 0], ![0, 0, 1, 0], ![0, 0, 0, 1]]

-- ===================================================================
-- KITTIRawPoses.get_cam_poses (data.py, lines 77-92)
-- ===================================================================

/-- Embedding of `KITTIRawPoses.get_cam_poses` of data.py on a non-empty
sequence of gps poses: every gps pose is right-multiplied by the calibration
transform `self.gps2cam_transform`, and with `zero_origin=True` every resulting
pose is then left-multiplied by the inverse of the first resulting pose. -/
noncomputable def get_cam_poses {n : ℕ} (gpsPoses : Fin (n + 1) → Mat4)
    (gps2cam : Mat4) (zero_origin : Bool) : Fin (n + 1) → Mat4 :=
  let poses := fun i => gpsPoses i * gps2cam
  if zero_origin then fun i => (poses 0)⁻¹ * poses i else poses

-- ===================================================================
-- KITTIRawPoses.load_calib_file (data.py, lines 101-116)
-- ===================================================================

/-- The marker whose first occurrence starts the rotation block of a KITTI
calibration file, `s.index('R:')` in the source. -/
def rMark : List Char := ['R', ':']

/-- The marker whose first occurrence starts the translation block of a KITTI
calibration file, `s.index('T:')` in the source. -/
def tMark : List Char := ['T', ':']

/-- Index of the first occurrence of `pat` in a character list, offset by `k`;
models Python `str.index`, which returns the least index at which the pattern
occurs (and raises, modelled by `none`, when it does not occur). -/
def strIdxAux (pat : List Char) : List Char → ℕ → Option ℕ
  | [], k => if pat.isPrefixOf [] then some k else none
  | c :: t, k =>
    if pat.isPrefixOf (c :: t) then some k else strIdxAux pat t (k + 1)

/-- Index of the first occurrence of `pat` in `s` (Python `s.index(pat)`). -/
def strIdx (s pat : List Char) : Option ℕ := strIdxAux pat s 0

/-- Whitespace characters on which `np.mat` splits a matrix data string. -/
def isWsChar (c : Char) : Bool :=
  c == ' ' || c == '\n' || c == '\t' || c == '\r'

/-- Splits a character list into maximal whitespace-free tokens. -/
def tokensAux : List Char → List Char → List (List Char)
  | [], acc => if acc.isEmpty then [] else [acc.reverse]
  | c :: t, acc =>
    if isWsChar c then
      (if acc.isEmpty then tokensAux t [] else acc.reverse :: tokensAux t [])
    else tokensAux t (c :: acc)

/-- Whitespace tokenisation of a character list. -/
def tokens (s : List Char) : List (List Char) := tokensAux s []

/-- Numeric value of a digit string (most significant digit first). -/
def digitsVal (t : List Char) : ℕ :=
  t.foldl (fun acc c => acc * 10 + (c.toNat - 48)) 0

/-- Strips a leading sign; returns whether the value is negated and the rest. -/
def splitSign : List Char → Bool × List Char
  | '-' :: t => (true, t)
  | '+' :: t => (false, t)
  | t => (false, t)

/-- Parses one decimal floating-point token (optional sign, integer part,
optional fractional part, optional scientific exponent) into an exact rational;
models how `np.mat(..., dtype=float64)` reads each whitespace-separated number
of a KITTI calibration file. -/
def parseFloat (t : List Char) : Option ℚ :=
  let sgn := splitSign t
  let mantPart := sgn.2.takeWhile fun c => !(c == 'e' || c == 'E')
  let expPart := sgn.2.dropWhile fun c => !(c == 'e' || c == 'E')
  let ip := mantPart.takeWhile Char.isDigit
  let fracRest := mantPart.dropWhile Char.isDigit
  let mantOpt : Option ℚ :=
    if ip.isEmpty then none
    else
      match fracRest with
      | [] => some (digitsVal ip : ℚ)
      | '.' :: frac =>
        if frac.all Char.isDigit then
          some ((digitsVal ip : ℚ) + (digitsVal frac : ℚ) / 10 ^ frac.length)
        else none
      | _ => none
  let expOpt : Option ℤ :=
    match expPart with
    | [] => some 0
    | _ :: et =>
      let esgn := splitSign et
      if esgn.2.isEmpty || !(esgn.2.all Char.isDigit) then none
      else some (if esgn.1 then -(digitsVal esgn.2 : ℤ) else (digitsVal esgn.2 : ℤ))
  match mantOpt, expOpt with
  | some m, some e => some ((if sgn.1 then -1 else 1) * m * (10 : ℚ) ^ e)
  | _, _ => none

/-- Parses all whitespace-separated numbers of a character slice. -/
def parseNums (s : List Char) : Option (List ℚ) := (tokens s).mapM parseFloat

/-- Embedding of `KITTIRawPoses.load_calib_file` of data.py.  The slice between
the first occurrence of the marker R: and the first occurrence of the marker T:
is parsed as 9 numbers (reshaped to the 3x3 rotation), the slice between the
marker T: and the following newline is parsed as 3 numbers (the translation),
and the result is the block matrix [[R, T], [0, 0, 0, 1]].  Any failure
(missing marker, missing newline, unparsable number, wrong count for the
reshape) raises in Python and is modelled by `none`. -/
def load_calib_file (s : List Char) : Option Mat4 :=
  (strIdx s rMark).bind fun ir =>
  (strIdx s tMark).bind fun it =>
  (strIdx (s.drop (it + 2)) ['\n']).bind fun k =>
  (parseNums ((s.drop (ir + 2)).take (it - (ir + 2)))).bind fun rn =>
  (parseNums ((s.drop (it + 2)).take ((it + 2 + k) - (it + 2)))).bind fun tn =>
  if rn.length = 9 ∧ tn.length = 3 then
    some (Matrix.of fun (i j : Fin 4) =>
      if (i : ℕ) < 3 then
        if (j : ℕ) < 3 then rn.getD (3 * (i : ℕ) + (j : ℕ)) 0
        else tn.getD (i : ℕ) 0
      else if (j : ℕ) = 3 then 1 else 0)
  else none

/-- A calibration file text laid out as claim C5 describes: some prefix, the
marker R:, the rotation numbers, the marker T:, the translation numbers, a
newline, and the rest of the file. -/
def calib_text (pre rtxt ttxt rest : List Char) : List Char :=
  pre ++ rMark ++ rtxt ++ tMark ++ ttxt ++ '\n' :: rest

/-- Concrete calibration file prefix (a header line without R: or T:). -/
def calibPreEx : List Char := ['c', 'a', 'l', 'i', 'b', '\n']

/-- Concrete rotation block text: the nine numbers of an identity rotation. -/
def calibRtxtEx : List Char :=
  [' ', '1', ' ', '0', ' ', '0', ' ', '0', ' ', '1', ' ', '0', ' ', '0', ' ',
   '0', ' ', '1', '\n']

/-- Concrete translation block text: the three numbers 2, 7 and 3. -/
def calibTtxtEx : List Char := [' ', '2', ' ', '7', ' ', '3']

/-- The rotation numbers parsed from `calibRtxtEx`. -/
def calibRnEx : List ℚ := [1, 0, 0, 0, 1, 0, 0, 0, 1]

/-- The translation numbers parsed from `calibTtxtEx`. -/
def calibTnEx : List ℚ := [2, 7, 3]

-- ===================================================================
-- KITTIDepthSelection.get_depth (data.py, lines 172-192)
-- ===================================================================

/-- The per-pixel decoding applied by `KITTIDepthSelection.get_depth` when
`to_depth_map=True`: the stored value is divided by 256 and pixels whose
quotient is 0 (exactly the stored value 0) are marked invalid with -1. -/
def decodeDepthPixel (v : ℕ) : ℚ :=
  if (v : ℚ) / 256 = 0 then -1 else (v : ℚ) / 256

/-- Maximum pixel value of a depth image, `np.max(depth)` in the source. -/
def imgMax (img : List (List ℕ)) : ℕ :=
  (img.map fun row => row.foldr max 0).foldr max 0

/-- Embedding of `KITTIDepthSelection.get_depth` of data.py on the pixel grid
of the loaded PNG (the path construction and the PIL loading are outside the
model).  The assertion `np.max(depth) > 255` failing is modelled by `none`;
otherwise the image, converted per pixel when `to_depth_map` is set, is
reshaped to (rows, cols, 1) by wrapping every pixel in a singleton list. -/
def get_depth (img : List (List ℕ)) (to_depth_map : Bool) :
    Option (List (List (List ℚ))) :=
  if 255 < imgMax img then
    some (img.map fun row => row.map fun v =>
      if to_depth_map then [decodeDepthPixel v] else [(v : ℚ)])
  else none

/-- Concrete depth image used to instantiate the get_depth theorems. -/
def depthImgEx : List (List ℕ) := [[0, 300], [256, 1]]

/-- The depth map produced by `get_depth depthImgEx true`. -/
def depthMapEx : List (List (List ℚ)) :=
  [[[-1], [75 / 64]], [[1], [1 / 256]]]

-- ===================================================================
-- save_gradslam_image (utils.py, lines 118-128) and the encode side
-- ===================================================================

/-- The per-pixel encoding applied by `save_gradslam_image` of utils.py: the
value is multiplied by 2^8 and cast to uint16 (truncation toward zero, with
the uint16 wrap made explicit by the mod). -/
def encodePixel (v : ℚ) : ℕ := (⌊v * 2 ^ 8⌋).toNat % 2 ^ 16

/-- Embedding of `save_gradslam_image` of utils.py on the pixel grid: the two
singleton batch dimensions are squeezed away (the model works on the bare
grid) and every pixel is encoded to uint16. -/
def save_gradslam_image (img : List (List ℚ)) : List (List ℕ) :=
  img.map fun row => row.map encodePixel

-- ===================================================================
-- convert_img_label (utils.py, lines 131-134)
-- ===================================================================

/-- Embedding of `convert_img_label` of utils.py on the string of the input,
`default[:-len(name)] + name` with `default = "0000000000"`.  Python's
`default[:-0]` is the empty string, which the zero-length branch mirrors. -/
def convert_img_label (name : List Char) : List Char :=
  (if name.length = 0 then []
   else (List.replicate 10 '0').take (10 - name.length)) ++ name

-- ===================================================================
-- complete_sequence (utils.py, lines 137-161)
-- ===================================================================

/-- A depth image with exact rational pixel values. -/
abbrev DepthImg : Type := List (List ℚ)

/-- The file system holding the saved predictions, as a map from file names to
stored (encoded) images. -/
def Store : Type := List Char → Option (List (List ℕ))

/-- Writing a file: the store maps the written name to the new image. -/
def store_write (st : Store) (p : List Char) (v : List (List ℕ)) : Store :=
  fun q => if q = p then some v else st q

/-- The store with no prediction file present. -/
def emptyStore : Store := fun _ => none

/-- The validity mask `(depths > 0).float()` computed by complete_sequence. -/
def depth_mask (d : DepthImg) : DepthImg :=
  d.map fun row => row.map fun v => if 0 < v then 1 else 0

/-- The prediction file name for a frame id, `convert_img_label(id) + ".png"`
(the directory part of the path is fixed per sequence and outside the model). -/
def prediction_file_name (id : ℕ) : List Char :=
  convert_img_label (Nat.repr id).data ++ ['.', 'p', 'n', 'g']

/-- Processing of one dataset item by `complete_sequence` of utils.py: when the
target file exists and `replace` is false the item is skipped; otherwise the
model is run on the sparse depths and the mask `(depths > 0)`, and the
prediction is saved (after removal of a pre-existing file when `replace` is
true, which the plain write models). -/
def complete_sequence_step (model : DepthImg → DepthImg → DepthImg)
    (replace : Bool) (st : Store) (item : ℕ × DepthImg) : Store :=
  if (st (prediction_file_name item.1)).isSome = true ∧ replace = false then st
  else
    store_write st (prediction_file_name item.1)
      (save_gradslam_image (model item.2 (depth_mask item.2)))

/-- Embedding of `complete_sequence` of utils.py: every dataset item (frame id
together with its sparse depth image) is processed in order. -/
def complete_sequence (model : DepthImg → DepthImg → DepthImg) (replace : Bool)
    (ds : List (ℕ × DepthImg)) (st : Store) : Store :=
  ds.foldl (complete_sequence_step model replace) st

/-- A trivial depth-completion network used to instantiate the
complete_sequence theorem: it returns the sparse input unchanged. -/
def modelEx : DepthImg → DepthImg → DepthImg := fun d _ => d

/-- A store already holding a prediction file for frame 5. -/
def storeWith5 : Store := store_write emptyStore (prediction_file_name 5) [[7]]

-- ===================================================================
-- Dataset.__getitem__ (data.py, lines 230-252)
-- ===================================================================

/-- A three-dimensional array (image with a channel dimension). -/
abbrev Img3 : Type := List (List (List ℚ))

/-- The intrinsics matrix built by `Dataset.__getitem__`: `np.eye(4)` with the
3x3 camera matrix K assigned to the top-left block. -/
def intrinsics4 (K : Matrix (Fin 3) (Fin 3) ℚ) : Mat4 :=
  Matrix.of fun (i j : Fin 4) =>
    if hi : (i : ℕ) < 3 then
      if hj : (j : ℕ) < 3 then K ⟨i, hi⟩ ⟨j, hj⟩ else (1 : Mat4) i j
    else (1 : Mat4) i j

/-- The four tensors returned by `Dataset.__getitem__`, in order. -/
structure GradslamItem where
  colors : List (List Img3)
  depths : List (List Img3)
  intrinsics : List (List Mat4)
  poses : List (List Mat4)

/-- Embedding of `Dataset.__getitem__` of data.py: the colors, depths,
intrinsics (K embedded into a 4x4 identity) and pose are each wrapped in two
leading singleton batch dimensions, `d[None][None]`.  The float32 conversion
is exact on the modelled values. -/
def dataset_getitem (colors depths : Img3) (K : Matrix (Fin 3) (Fin 3) ℚ)
    (pose : Mat4) : GradslamItem :=
  { colors := [[colors]], depths := [[depths]],
    intrinsics := [[intrinsics4 K]], poses := [[pose]] }

/-- Concrete camera matrix used to instantiate the Dataset theorems. -/
def kMatEx : Matrix (Fin 3) (Fin 3) ℚ :=
  Matrix.of ![![720, 0, 600], ![0, 720, 180], ![0, 0, 1]]

-- ===================================================================
-- General helper lemmas
-- ===================================================================

/-- Element access through a map, in bounds: the default is irrelevant. -/
theorem getD_map_of_lt {α β : Type _} (f : α → β) :
    ∀ (l : List α) (i : ℕ), i < l.length → ∀ (d : β) (d' : α),
      (l.map f).getD i d = f (l.getD i d')
  | [], i, hi => by simp at hi
  | a :: t, 0, hi => by intro d d'; rfl
  | a :: t, i + 1, hi => by
    intro d d'
    have := getD_map_of_lt f t i (by simpa using hi) d d'
    simpa [List.getD] using this

/-- Element access out of bounds yields the default. -/
theorem getD_of_len_le {α : Type _} :
    ∀ (l : List α) (i : ℕ), l.length ≤ i → ∀ (d : α), l.getD i d = d
  | [], i, hi => by intro d; cases i <;> rfl
  | a :: t, 0, hi => by simp at hi
  | a :: t, i + 1, hi => by
    intro d
    have := getD_of_len_le t i (by simpa using hi) d
    simpa [List.getD] using this

/-- A fold of max over a list is bounded iff every element is. -/
theorem foldr_max_le_iff (l : List ℕ) (b : ℕ) :
    l.foldr max 0 ≤ b ↔ ∀ v ∈ l, v ≤ b := by
  induction l with
  | nil => simp
  | cons a t ih => simp [Nat.max_le, ih]

/-- The maximum pixel of an image is bounded iff every pixel is. -/
theorem imgMax_le_iff (img : List (List ℕ)) :
    imgMax img ≤ 255 ↔ ∀ r ∈ img, ∀ v ∈ r, v ≤ 255 := by
  rw [imgMax, foldr_max_le_iff]
  constructor
  · intro h r hr v hv
    exact (foldr_max_le_iff r 255).mp (h _ (List.mem_map_of_mem _ hr)) v hv
  · intro h x hx
    obtain ⟨r, hr, rfl⟩ := List.mem_map.mp hx
    exact (foldr_max_le_iff r 255).mpr (h r hr)

-- ===================================================================
-- Claim C8: convert_img_label
-- ===================================================================

/-- Claim C8: for inputs of 1 to 10 characters, convert_img_label left-pads
with zeros to exactly 10 characters; for longer inputs it returns the input
unchanged. -/
theorem convert_img_label_spec (name : List Char) :
    (1 ≤ name.length → name.length ≤ 10 →
      convert_img_label name = List.replicate (10 - name.length) '0' ++ name ∧
      (convert_img_label name).length = 10) ∧
    (10 < name.length → convert_img_label name = name) := by
  constructor
  · intro h1 h10
    have hne : ¬ name.length = 0 := by omega
    have hmin : min (10 - name.length) 10 = 10 - name.length := by omega
    constructor
    · rw [convert_img_label, if_neg hne, List.take_replicate, hmin]
    · rw [convert_img_label, if_neg hne, List.take_replicate, hmin]
      simp only [List.length_append, List.length_replicate]
      omega
  · intro h
    have hne : ¬ name.length = 0 := by omega
    have hz : 10 - name.length = 0 := by omega
    simp [convert_img_label, hne, hz]

/-- Witness for claim C8 at the concrete two-character label 95. -/
theorem convert_img_label_witness :
    1 ≤ (['9', '5'] : List Char).length ∧ (['9', '5'] : List Char).length ≤ 10 ∧
    convert_img_label ['9', '5'] =
      ['0', '0', '0', '0', '0', '0', '0', '0', '9', '5'] := by
  refine ⟨by decide, by decide, ?_⟩
  exact ((convert_img_label_spec ['9', '5']).1 (by decide) (by decide)).1.trans
    (by decide)

-- ===================================================================
-- Claim C2: get_calibrations composes in the wrong order (code bug)
-- ===================================================================

/-- Claim C2 (code bug): the source composes the calibration matrices as
np.matmul(TrImuToVelo, TrVeloToCam), not the transform-chaining product
TrVeloToCam * TrImuToVelo its own name TrImuToCam0 requires.  At the concrete
transforms below the two orders differ: the correct chain takes the IMU origin
(0,0,0) to camera coordinates (0,1,0), while the returned matrix takes it to
(1,0,0). -/
theorem get_calibrations_swapped :
    get_calibrations imuToVeloEx veloToCamEx = imuToVeloEx * veloToCamEx ∧
    get_calibrations imuToVeloEx veloToCamEx ≠ veloToCamEx * imuToVeloEx ∧
    (veloToCamEx * imuToVeloEx).mulVec ![0, 0, 0, 1] = ![0, 1, 0, 1] ∧
    (get_calibrations imuToVeloEx veloToCamEx).mulVec ![0, 0, 0, 1] =
      ![1, 0, 0, 1] := by
  refine ⟨rfl, ?_, ?_, ?_⟩
  · intro h
    have h03 := congrFun (congrFun h 0) 3
    simp [get_calibrations, imuToVeloEx, veloToCamEx, Matrix.mul_apply,
      Fin.sum_univ_four] at h03
  · funext i
    fin_cases i <;>
      simp [veloToCamEx, imuToVeloEx, Matrix.mulVec, Matrix.dotProduct,
        Fin.sum_univ_four]
  · funext i
    fin_cases i <;>
      simp [get_calibrations, veloToCamEx, imuToVeloEx, Matrix.mulVec,
        Matrix.dotProduct, Matrix.mul_apply, Fin.sum_univ_four]

-- ===================================================================
-- Claim C9: the 8-bit assertion in get_depth
-- ===================================================================

/-- Claim C9: get_depth fails its assertion exactly when every pixel of the
loaded image is at most 255 (in particular for a genuine uint16 depth map
whose depths are all below one meter), and succeeds as soon as one pixel
exceeds 255. -/
theorem get_depth_assert (img : List (List ℕ)) (to_depth_map : Bool)
    (h1 : img ≠ []) (h2 : ∀ r ∈ img, r ≠ []) :
    (get_depth img to_depth_map = none ↔ ∀ r ∈ img, ∀ v ∈ r, v ≤ 255) := by
  have hiff : get_depth img to_depth_map = none ↔ ¬ 255 < imgMax img := by
    rw [get_depth]
    by_cases h : 255 < imgMax img
    · simp [h]
    · simp [h]
  rw [hiff, Nat.not_lt, imgMax_le_iff]

/-- Witness for claim C9 at a concrete image whose pixels are all below 256:
get_depth fails its assertion there. -/
theorem get_depth_assert_witness :
    ([[100, 7]] : List (List ℕ)) ≠ [] ∧
    (∀ r ∈ ([[100, 7]] : List (List ℕ)), r ≠ []) ∧
    (get_depth [[100, 7]] true = none ↔
      ∀ r ∈ ([[100, 7]] : List (List ℕ)), ∀ v ∈ r, v ≤ 255) :=
  ⟨by decide, by decide, get_depth_assert [[100, 7]] true (by decide) (by decide)⟩

-- ===================================================================
-- Claim C6: Dataset.__getitem__
-- ===================================================================

/-- Claim C6: Dataset.__getitem__ returns the four components colors, depths,
intrinsics and poses, each wrapped in two leading singleton batch dimensions;
the intrinsics is the camera matrix K embedded in the top-left block of a 4x4
identity, and the poses component holds the 4x4 pose. -/
theorem dataset_getitem_spec (colors depths : Img3)
    (K : Matrix (Fin 3) (Fin 3) ℚ) (pose : Mat4) :
    (dataset_getitem colors depths K pose).colors = [[colors]] ∧
    (dataset_getitem colors depths K pose).depths = [[depths]] ∧
    (dataset_getitem colors depths K pose).intrinsics = [[intrinsics4 K]] ∧
    (dataset_getitem colors depths K pose).poses = [[pose]] ∧
    (dataset_getitem colors depths K pose).intrinsics.length = 1 ∧
    ((dataset_getitem colors depths K pose).intrinsics.getD 0 []).length = 1 ∧
    (dataset_getitem colors depths K pose).poses.length = 1 ∧
    ((dataset_getitem colors depths K pose).poses.getD 0 []).length = 1 ∧
    (∀ (i j : Fin 3),
      intrinsics4 K ⟨i.1, Nat.lt_succ_of_lt i.isLt⟩ ⟨j.1, Nat.lt_succ_of_lt j.isLt⟩
        = K i j) ∧
    (∀ (i j : Fin 4), ¬((i : ℕ) < 3 ∧ (j : ℕ) < 3) →
      intrinsics4 K i j = if i = j then 1 else 0) := by
  refine ⟨rfl, rfl, rfl, rfl, rfl, rfl, rfl, rfl, ?_, ?_⟩
  · intro i j
    simp [intrinsics4, i.isLt, j.isLt]
  · intro i j hij
    by_cases hi : (i : ℕ) < 3
    · have hj : ¬ (j : ℕ) < 3 := fun hj => hij ⟨hi, hj⟩
      simp [intrinsics4, hi, hj, Matrix.one_apply]
    · simp [intrinsics4, hi, Matrix.one_apply]

/-- Witness for claim C6: the off-block entry (3,3) of the intrinsics built
from a concrete camera matrix is the identity entry 1. -/
theorem dataset_getitem_witness :
    ¬(((3 : Fin 4) : ℕ) < 3 ∧ ((3 : Fin 4) : ℕ) < 3) ∧
    intrinsics4 kMatEx 3 3 = 1 := by
  constructor
  · decide
  · have h := (dataset_getitem_spec [] [] kMatEx 1).2.2.2.2.2.2.2.2.2 3 3
      (by decide)
    simpa using h

-- ===================================================================
-- Claim C4: encode/decode round trip (corrected)
-- ===================================================================

/-- Counterexample to claim C4 as stated: the positive depth 1/512 m encodes
to the uint16 value 0, which the /256 convention of get_depth decodes as the
invalid marker -1, not within one quantization step of the original value. -/
theorem encode_decode_cex :
    0 < (1 / 512 : ℚ) ∧ (1 / 512 : ℚ) < 256 ∧
    decodeDepthPixel (encodePixel (1 / 512)) = -1 ∧
    1 / 256 < |(1 / 512 : ℚ) - decodeDepthPixel (encodePixel (1 / 512))| := by
  have hfl : ⌊(1 / 512 : ℚ) * 2 ^ 8⌋ = 0 := by
    rw [show (1 / 512 : ℚ) * 2 ^ 8 = 1 / 2 by norm_num, Int.floor_eq_zero_iff]
    constructor <;> norm_num
  have henc : encodePixel (1 / 512) = 0 := by
    rw [encodePixel, hfl]
    rfl
  have hdec : decodeDepthPixel (encodePixel (1 / 512)) = -1 := by
    rw [henc, decodeDepthPixel, if_pos (by norm_num)]
  refine ⟨by norm_num, by norm_num, hdec, ?_⟩
  rw [hdec]
  rw [show (1 / 512 : ℚ) - -1 = 513 / 512 by norm_num]
  rw [abs_of_pos (by norm_num)]
  norm_num

/-- Claim C4 as amended: every depth value in [0, 256) whose encoded pixel is
positive (256 * v at least 1) is recovered by the /256 decoding from below,
with error strictly below the quantization step 1/256. -/
theorem encode_decode_spec (v : ℚ) (h0 : 0 ≤ v) (h1 : v < 256)
    (h2 : 1 ≤ v * 256) :
    decodeDepthPixel (encodePixel v) ≤ v ∧
    v - decodeDepthPixel (encodePixel v) < 1 / 256 := by
  have h256 : (2 : ℚ) ^ 8 = 256 := by norm_num
  have hfl : (1 : ℤ) ≤ ⌊v * 2 ^ 8⌋ := by
    apply Int.le_floor.mpr
    push_cast
    rw [h256]
    linarith
  have hub : ⌊v * 2 ^ 8⌋ < 65536 := by
    apply Int.floor_lt.mpr
    push_cast
    rw [h256]
    nlinarith
  have htn : (⌊v * 2 ^ 8⌋).toNat % 2 ^ 16 = (⌊v * 2 ^ 8⌋).toNat :=
    Nat.mod_eq_of_lt (by omega)
  have hnn : (0 : ℤ) ≤ ⌊v * 2 ^ 8⌋ := by omega
  have hcast : ((⌊v * 2 ^ 8⌋).toNat : ℚ) = ((⌊v * 2 ^ 8⌋ : ℤ) : ℚ) := by
    exact_mod_cast congrArg (fun z : ℤ => (z : ℚ)) (Int.toNat_of_nonneg hnn)
  have hflle : ((⌊v * 2 ^ 8⌋ : ℤ) : ℚ) ≤ v * 256 := by
    have := Int.floor_le (v * 2 ^ 8)
    rwa [h256] at this
  have hfllt : v * 256 - 1 < ((⌊v * 2 ^ 8⌋ : ℤ) : ℚ) := by
    have := Int.sub_one_lt_floor (v * 2 ^ 8)
    rwa [h256] at this
  have hval : decodeDepthPixel (encodePixel v) = ((⌊v * 2 ^ 8⌋ : ℤ) : ℚ) / 256 := by
    rw [encodePixel, htn, decodeDepthPixel, hcast, if_neg]
    rw [div_eq_zero_iff]
    rintro (hz | hz)
    · have : ⌊v * 2 ^ 8⌋ = 0 := by exact_mod_cast hz
      omega
    · norm_num at hz
  rw [hval]
  constructor
  · rw [div_le_iff₀ (by norm_num : (0 : ℚ) < 256)]
    linarith
  · rw [sub_lt_iff_lt_add, div_add_div_same,
      lt_div_iff₀ (by norm_num : (0 : ℚ) < 256)]
    linarith

/-- Witness for the amended claim C4 at the concrete depth 3/2 m. -/
theorem encode_decode_witness :
    (0 : ℚ) ≤ 3 / 2 ∧ (3 / 2 : ℚ) < 256 ∧ (1 : ℚ) ≤ 3 / 2 * 256 ∧
    decodeDepthPixel (encodePixel (3 / 2)) ≤ 3 / 2 ∧
    3 / 2 - decodeDepthPixel (encodePixel (3 / 2)) < 1 / 256 :=
  ⟨by norm_num, by norm_num, by norm_num,
   (encode_decode_spec (3 / 2) (by norm_num) (by norm_num) (by norm_num)).1,
   (encode_decode_spec (3 / 2) (by norm_num) (by norm_num) (by norm_num)).2⟩

-- ===================================================================
-- Claim C3: get_depth decoding with to_depth_map=True
-- ===================================================================

/-- Claim C3: when get_depth with to_depth_map=True returns, the result has
one row per image row, one entry per pixel, every entry a singleton channel
list (shape rows x cols x 1), and at every pixel whose stored value v is
positive the decoded entry is the depth v / 256 meters. -/
theorem get_depth_decode (img : List (List ℕ)) (m : List (List (List ℚ)))
    (h : get_depth img true = some m) :
    m.length = img.length ∧
    (∀ i : ℕ, (m.getD i []).length = (img.getD i []).length) ∧
    (∀ i j : ℕ, j < (img.getD i []).length →
      ((m.getD i []).getD j []).length = 1) ∧
    (∀ i j : ℕ, 0 < (img.getD i []).getD j 0 →
      (m.getD i []).getD j [] = [(((img.getD i []).getD j 0 : ℕ) : ℚ) / 256]) := by
  have hm : m = img.map fun row => row.map fun v => [decodeDepthPixel v] := by
    rw [get_depth] at h
    by_cases hc : 255 < imgMax img
    · rw [if_pos hc] at h
      have h' := Option.some.inj h
      simpa using h'.symm
    · rw [if_neg hc] at h
      exact absurd h (by simp)
  subst hm
  refine ⟨by simp, ?_, ?_, ?_⟩
  · intro i
    by_cases hi : i < img.length
    · have e1 := getD_map_of_lt (fun row : List ℕ => row.map fun v =>
        [decodeDepthPixel v]) img i hi ([] : List (List ℚ)) ([] : List ℕ)
      rw [e1, List.length_map]
    · have h1 := getD_of_len_le img i (by omega) []
      have h2 := getD_of_len_le (img.map fun row => row.map fun v =>
        [decodeDepthPixel v]) i (by simpa using (by omega : img.length ≤ i)) []
      rw [h1, h2]
      rfl
  · intro i j hj
    by_cases hi : i < img.length
    · have e1 := getD_map_of_lt (fun row : List ℕ => row.map fun v =>
        [decodeDepthPixel v]) img i hi ([] : List (List ℚ)) ([] : List ℕ)
      have e2 := getD_map_of_lt (fun v : ℕ => [decodeDepthPixel v])
        (img.getD i []) j hj ([] : List ℚ) 0
      rw [e1, e2]
      rfl
    · exfalso
      rw [getD_of_len_le img i (by omega) []] at hj
      simp at hj
  · intro i j hv
    by_cases hi : i < img.length
    · by_cases hj : j < (img.getD i []).length
      · have e1 := getD_map_of_lt (fun row : List ℕ => row.map fun v =>
          [decodeDepthPixel v]) img i hi ([] : List (List ℚ)) ([] : List ℕ)
        have e2 := getD_map_of_lt (fun v : ℕ => [decodeDepthPixel v])
          (img.getD i []) j hj ([] : List ℚ) 0
        simp only [e1, e2]
        rw [decodeDepthPixel, if_neg]
        intro h0
        rw [div_eq_zero_iff] at h0
        rcases h0 with h0 | h0
        · have hz : (img.getD i []).getD j 0 = 0 := by exact_mod_cast h0
          omega
        · norm_num at h0
      · exfalso
        rw [getD_of_len_le (img.getD i []) j (by omega) 0] at hv
        omega
    · exfalso
      rw [getD_of_len_le img i (by omega) []] at hv
      have : (([] : List ℕ)).getD j 0 = 0 := getD_of_len_le [] j (by simp) 0
      rw [this] at hv
      omega

/-- Witness for claim C3 at a concrete 2x2 depth image. -/
theorem get_depth_decode_witness :
    get_depth depthImgEx true = some depthMapEx ∧
    0 < (depthImgEx.getD 0 []).getD 1 0 ∧
    (depthMapEx.getD 0 []).getD 1 [] =
      [(((depthImgEx.getD 0 []).getD 1 0 : ℕ) : ℚ) / 256] := by
  have h : get_depth depthImgEx true = some depthMapEx := by
    norm_num [get_depth, imgMax, decodeDepthPixel, depthImgEx, depthMapEx]
  exact ⟨h, by decide, (get_depth_decode depthImgEx depthMapEx h).2.2.2 0 1 (by decide)⟩

-- ===================================================================
-- Claim C10: get_cam_poses with zero_origin=True
-- ===================================================================

/-- Claim C10: with zero_origin=True on a non-empty sequence (and the first
composed pose invertible), the first returned pose is the identity and the
relative transform between any two frames is unchanged relative to
zero_origin=False. -/
theorem get_cam_poses_zero_origin {n : ℕ} (gpsPoses : Fin (n + 1) → Mat4)
    (gps2cam : Mat4) (h : IsUnit (gpsPoses 0 * gps2cam).det) :
    get_cam_poses gpsPoses gps2cam true 0 = 1 ∧
    ∀ i j : Fin (n + 1),
      (get_cam_poses gpsPoses gps2cam true i)⁻¹ *
          get_cam_poses gpsPoses gps2cam true j =
        (get_cam_poses gpsPoses gps2cam false i)⁻¹ *
          get_cam_poses gpsPoses gps2cam false j := by
  have hred : get_cam_poses gpsPoses gps2cam true =
      fun i => (gpsPoses 0 * gps2cam)⁻¹ * (gpsPoses i * gps2cam) := by
    simp [get_cam_poses]
  have hred' : get_cam_poses gpsPoses gps2cam false =
      fun i => gpsPoses i * gps2cam := by
    simp [get_cam_poses]
  constructor
  · rw [hred]
    exact Matrix.nonsing_inv_mul _ h
  · intro i j
    rw [hred, hred']
    show ((gpsPoses 0 * gps2cam)⁻¹ * (gpsPoses i * gps2cam))⁻¹ *
        ((gpsPoses 0 * gps2cam)⁻¹ * (gpsPoses j * gps2cam)) =
      (gpsPoses i * gps2cam)⁻¹ * (gpsPoses j * gps2cam)
    rw [Matrix.mul_inv_rev, Matrix.nonsing_inv_nonsing_inv _ h, mul_assoc,
      ← mul_assoc (gpsPoses 0 * gps2cam), Matrix.mul_nonsing_inv _ h, one_mul]

/-- Witness for claim C10 on the singleton identity sequence. -/
theorem get_cam_poses_witness :
    IsUnit ((fun _ : Fin 1 => (1 : Mat4)) 0 * (1 : Mat4)).det ∧
    get_cam_poses (fun _ : Fin 1 => (1 : Mat4)) 1 true 0 = 1 :=
  ⟨by simp,
   (get_cam_poses_zero_origin (fun _ : Fin 1 => (1 : Mat4)) 1 (by simp)).1⟩

-- ===================================================================
-- Claim C1: gps_to_ecef (corrected: z is alt, not the geodetic formula)
-- ===================================================================

/-- Counterexample to claim C1 as stated: at latitude 90, longitude 0 and
altitude 0 the source returns z = alt = 0, while the claimed full WGS84
conversion returns the positive value a * (1 - f) for z. -/
theorem gps_to_ecef_cex : gps_to_ecef 90 0 0 ≠ gpsToEcefClaimed 90 0 0 := by
  intro h
  have hf0 : (0 : ℝ) < 1 - 1 / 298.257223563 := by norm_num
  have hrad : (90 : ℝ) * (Real.pi / 180.0) = Real.pi / 2 := by
    rw [show (180.0 : ℝ) = 180 by norm_num]
    ring
  have hsin : Real.sin ((90 : ℝ) * (Real.pi / 180.0)) = 1 := by
    rw [hrad, Real.sin_pi_div_two]
  have h1 : (gps_to_ecef 90 0 0).2.2 = 0 := rfl
  have h2 : (gpsToEcefClaimed 90 0 0).2.2 =
      6378137.0 * (1 - 1 / 298.257223563) := by
    simp only [gpsToEcefClaimed]
    rw [hsin]
    rw [show (1 : ℝ) - (1 - (1 - 1 / 298.257223563) ^ 2) * 1 ^ 2 =
      (1 - 1 / 298.257223563) ^ 2 from by ring]
    rw [Real.sqrt_sq hf0.le]
    have hne : (1 - 1 / 298.257223563 : ℝ) ≠ 0 := ne_of_gt hf0
    field_simp
    ring
  have h3 : (0 : ℝ) ≠ 6378137.0 * (1 - 1 / 298.257223563) := by
    have hpos := mul_pos (by norm_num : (0 : ℝ) < 6378137.0) hf0
    exact ne_of_lt hpos
  apply h3
  rw [← h1, ← h2]
  exact congrArg (fun p : ℝ × ℝ × ℝ => p.2.2) h

/-- Claim C1 as amended: the x and y coordinates agree with the claimed WGS84
formulas for every input, and the z coordinate is the raw altitude. -/
theorem gps_to_ecef_amended (lat lon alt : ℝ) :
    (gps_to_ecef lat lon alt).1 = (gpsToEcefClaimed lat lon alt).1 ∧
    (gps_to_ecef lat lon alt).2.1 = (gpsToEcefClaimed lat lon alt).2.1 ∧
    (gps_to_ecef lat lon alt).2.2 = alt := by
  have hv : ∀ x : ℝ,
      1 - (1 - (1 - 1 / 298.257223563) * (1 - 1 / 298.257223563)) *
          Real.sin x * Real.sin x =
        1 - (1 - (1 - 1 / 298.257223563 : ℝ) ^ 2) * Real.sin x ^ 2 := by
    intro x
    ring
  refine ⟨?_, ?_, rfl⟩ <;>
    · simp only [gps_to_ecef, gpsToEcefClaimed]
      rw [hv]

-- ===================================================================
-- Claim C7: complete_sequence skips existing files, else runs and saves
-- ===================================================================

/-- Frames whose file names differ from p leave the store unchanged at p. -/
theorem complete_sequence_no_touch (model : DepthImg → DepthImg → DepthImg)
    (replace : Bool) :
    ∀ (l : List (ℕ × DepthImg)) (st : Store) (p : List Char),
      (∀ q ∈ l, prediction_file_name q.1 ≠ p) →
      complete_sequence model replace l st p = st p := by
  intro l
  induction l with
  | nil => intro st p _; rfl
  | cons a t ih =>
    intro st p h
    have hstep : complete_sequence_step model replace st a p = st p := by
      rw [complete_sequence_step]
      by_cases hc : (st (prediction_file_name a.1)).isSome = true ∧
          replace = false
      · rw [if_pos hc]
      · rw [if_neg hc, store_write]
        exact if_neg fun he => (h a (by simp)) he.symm
    calc complete_sequence model replace (a :: t) st p
        = complete_sequence model replace t
            (complete_sequence_step model replace st a) p := rfl
      _ = complete_sequence_step model replace st a p :=
          ih _ p fun q hq => h q (by simp [hq])
      _ = st p := hstep

/-- Claim C7: for an item of the dataset, if its prediction file exists and
replace is false, the file is unchanged by complete_sequence; otherwise the
file afterwards holds the saved model prediction computed from the sparse
depths and the positivity mask. -/
theorem complete_sequence_spec (model : DepthImg → DepthImg → DepthImg)
    (replace : Bool) (st : Store) (pre post : List (ℕ × DepthImg)) (id : ℕ)
    (d : DepthImg)
    (hpre : ∀ q ∈ pre, prediction_file_name q.1 ≠ prediction_file_name id)
    (hpost : ∀ q ∈ post, prediction_file_name q.1 ≠ prediction_file_name id) :
    ((st (prediction_file_name id)).isSome = true ∧ replace = false →
      complete_sequence model replace (pre ++ (id, d) :: post) st
          (prediction_file_name id) = st (prediction_file_name id)) ∧
    (¬ ((st (prediction_file_name id)).isSome = true ∧ replace = false) →
      complete_sequence model replace (pre ++ (id, d) :: post) st
          (prediction_file_name id) =
        some (save_gradslam_image (model d (depth_mask d)))) := by
  have hsplit : complete_sequence model replace (pre ++ (id, d) :: post) st =
      complete_sequence model replace post
        (complete_sequence_step model replace
          (complete_sequence model replace pre st) (id, d)) := by
    rw [complete_sequence, List.foldl_append]
    rfl
  have hpre' : complete_sequence model replace pre st (prediction_file_name id) =
      st (prediction_file_name id) :=
    complete_sequence_no_touch model replace pre st _ hpre
  constructor
  · intro hc
    rw [hsplit, complete_sequence_no_touch model replace post _ _ hpost,
      complete_sequence_step]
    rw [if_pos (⟨by rw [hpre']; exact hc.1, hc.2⟩ :
      (complete_sequence model replace pre st
        (prediction_file_name (id, d).1)).isSome = true ∧ replace = false)]
    exact hpre'
  · intro hc
    rw [hsplit, complete_sequence_no_touch model replace post _ _ hpost,
      complete_sequence_step]
    rw [if_neg fun hcc => hc ⟨by rw [← hpre']; exact hcc.1, hcc.2⟩]
    rw [store_write, if_pos rfl]

/-- Witness for claim C7: on an empty store the prediction for frame 5 is
computed and saved; on a store already holding that file with replace=false
the store is unchanged there. -/
theorem complete_sequence_witness :
    (¬ ((emptyStore (prediction_file_name 5)).isSome = true ∧ false = false)) ∧
    complete_sequence modelEx false ([] ++ (5, [[2]]) :: []) emptyStore
        (prediction_file_name 5) =
      some (save_gradslam_image (modelEx [[2]] (depth_mask [[2]]))) ∧
    (storeWith5 (prediction_file_name 5)).isSome = true ∧
    complete_sequence modelEx false ([] ++ (5, [[2]]) :: []) storeWith5
        (prediction_file_name 5) = storeWith5 (prediction_file_name 5) := by
  refine ⟨?_, ?_, ?_, ?_⟩
  · simp [emptyStore]
  · exact (complete_sequence_spec modelEx false emptyStore [] [] 5 [[2]]
      (by simp) (by simp)).2 (by simp [emptyStore])
  · simp [storeWith5, store_write]
  · exact (complete_sequence_spec modelEx false storeWith5 [] [] 5 [[2]]
      (by simp) (by simp)).1 ⟨by simp [storeWith5, store_write], rfl⟩

-- ===================================================================
-- Claim C5: load_calib_file
-- ===================================================================

/-- A list is a boolean prefix of itself followed by anything. -/
theorem isPrefixOf_append_self (p z : List Char) :
    p.isPrefixOf (p ++ z) = true := by
  induction p with
  | nil => cases z <;> rfl
  | cons a t ih => simp [List.isPrefixOf, ih]

/-- The scan strIdxAux returns the offset of the first occurrence of the pattern. -/
theorem strIdxAux_first (pat : List Char) :
    ∀ (s : List Char) (n k0 : ℕ), pat.isPrefixOf (List.drop n s) = true →
      (∀ k, k < n → pat.isPrefixOf (List.drop k s) = false) →
      strIdxAux pat s k0 = some (k0 + n) := by
  intro s
  induction s with
  | nil =>
    intro n k0 h1 h2
    cases n with
    | zero =>
      rw [List.drop_nil] at h1
      simp [strIdxAux, h1]
    | succ m =>
      have ha := h2 0 (Nat.succ_pos m)
      rw [List.drop_nil] at h1
      simp [List.drop_zero, h1] at ha
  | cons c t ih =>
    intro n k0 h1 h2
    cases n with
    | zero =>
      rw [List.drop_zero] at h1
      simp [strIdxAux, h1]
    | succ m =>
      have h0 : pat.isPrefixOf (c :: t) = false := by
        have := h2 0 (Nat.succ_pos m)
        simpa [List.drop_zero] using this
      have h1' : pat.isPrefixOf (List.drop m t) = true := by simpa using h1
      have h2' : ∀ k, k < m → pat.isPrefixOf (List.drop k t) = false := by
        intro k hk
        simpa using h2 (k + 1) (Nat.succ_lt_succ hk)
      simp only [strIdxAux, h0]
      rw [ih m (k0 + 1) h1' h2']
      exact congrArg some (by omega)

/-- The scan strIdx returns the index of the first occurrence of the pattern. -/
theorem strIdx_first (s pat : List Char) (n : ℕ)
    (h1 : pat.isPrefixOf (List.drop n s) = true)
    (h2 : ∀ k, k < n → pat.isPrefixOf (List.drop k s) = false) :
    strIdx s pat = some n := by
  have := strIdxAux_first pat s n 0 h1 h2
  simpa [strIdx] using this

/-- Dropping from an append, while still inside the first part. -/
theorem drop_append_of_le {α : Type _} :
    ∀ (l₁ l₂ : List α) (k : ℕ), k ≤ l₁.length →
      (l₁ ++ l₂).drop k = l₁.drop k ++ l₂
  | _, _, 0, _ => by simp
  | [], _, k + 1, h => by simp at h
  | a :: t, l₂, k + 1, h => by
    simp only [List.cons_append, List.drop_succ_cons]
    exact drop_append_of_le t l₂ k (by simpa using h)

/-- Dropping below the length exposes the element at that index. -/
theorem drop_cons_head {α : Type _} :
    ∀ (l : List α) (k : ℕ) (hk : k < l.length),
      l.drop k = l.get ⟨k, hk⟩ :: l.drop (k + 1)
  | [], k, hk => by simp at hk
  | a :: t, 0, hk => rfl
  | a :: t, k + 1, hk => by
    simp only [List.drop_succ_cons, List.get_cons_succ]
    exact drop_cons_head t k (by simpa using hk)

/-- The first newline after a newline-free block sits right after the block. -/
theorem strIdx_newline (ttxt rest : List Char) (h : '\n' ∉ ttxt) :
    strIdx (ttxt ++ '\n' :: rest) ['\n'] = some ttxt.length := by
  apply strIdx_first
  · rw [List.drop_left]
    simp [List.isPrefixOf]
  · intro k hk
    rw [drop_append_of_le ttxt ('\n' :: rest) k hk.le, drop_cons_head ttxt k hk,
      List.cons_append]
    have hmem : ttxt.get ⟨k, hk⟩ ∈ ttxt := List.get_mem ttxt k hk
    have hne : ('\n' : Char) ≠ ttxt.get ⟨k, hk⟩ := fun he => h (he ▸ hmem)
    simp [List.isPrefixOf]
    simpa [List.get_eq_getElem] using hne

/-- Claim C5: on a calibration file holding the marker R:, nine rotation
numbers, the marker T:, three translation numbers and a newline (with the
markers first occurring at those spots), load_calib_file returns the block
matrix whose top-left 3x3 block is the parsed rotation, whose last column
holds the parsed translation, and whose bottom row is 0, 0, 0, 1. -/
theorem load_calib_file_spec (pre rtxt ttxt rest : List Char) (rn tn : List ℚ)
    (hR : ∀ k, k < pre.length →
      rMark.isPrefixOf (List.drop k (calib_text pre rtxt ttxt rest)) = false)
    (hT : ∀ k, k < pre.length + 2 + rtxt.length →
      tMark.isPrefixOf (List.drop k (calib_text pre rtxt ttxt rest)) = false)
    (hNl : '\n' ∉ ttxt)
    (hrn : parseNums rtxt = some rn) (hr9 : rn.length = 9)
    (htn : parseNums ttxt = some tn) (ht3 : tn.length = 3) :
    load_calib_file (calib_text pre rtxt ttxt rest) =
      some (Matrix.of fun (i j : Fin 4) =>
        if (i : ℕ) < 3 then
          if (j : ℕ) < 3 then rn.getD (3 * (i : ℕ) + (j : ℕ)) 0
          else tn.getD (i : ℕ) 0
        else if (j : ℕ) = 3 then 1 else 0) := by
  have hs1 : calib_text pre rtxt ttxt rest =
      pre ++ (rMark ++ (rtxt ++ (tMark ++ (ttxt ++ '\n' :: rest)))) := by
    simp [calib_text, List.append_assoc]
  have hs2 : calib_text pre rtxt ttxt rest =
      (pre ++ rMark) ++ (rtxt ++ (tMark ++ (ttxt ++ '\n' :: rest))) := by
    simp [calib_text, List.append_assoc]
  have hs3 : calib_text pre rtxt ttxt rest =
      (pre ++ rMark ++ rtxt) ++ (tMark ++ (ttxt ++ '\n' :: rest)) := by
    simp [calib_text, List.append_assoc]
  have hs4 : calib_text pre rtxt ttxt rest =
      (pre ++ rMark ++ rtxt ++ tMark) ++ (ttxt ++ '\n' :: rest) := by
    simp [calib_text, List.append_assoc]
  have hlen2 : (pre ++ rMark).length = pre.length + 2 := by
    simp [rMark]
  have hlen3 : (pre ++ rMark ++ rtxt).length = pre.length + 2 + rtxt.length := by
    simp only [List.length_append, hlen2]
  have hlen4 : (pre ++ rMark ++ rtxt ++ tMark).length =
      pre.length + 2 + rtxt.length + 2 := by
    simp only [List.length_append, hlen2]
    simp [tMark]
  have e1 : strIdx (calib_text pre rtxt ttxt rest) rMark = some pre.length := by
    apply strIdx_first
    · rw [hs1, List.drop_left]
      exact isPrefixOf_append_self rMark _
    · exact hR
  have e2 : strIdx (calib_text pre rtxt ttxt rest) tMark =
      some (pre.length + 2 + rtxt.length) := by
    apply strIdx_first
    · rw [hs3, ← hlen3, List.drop_left]
      exact isPrefixOf_append_self tMark _
    · exact hT
  have e3 : List.drop (pre.length + 2 + rtxt.length + 2)
      (calib_text pre rtxt ttxt rest) = ttxt ++ '\n' :: rest := by
    rw [hs4, ← hlen4, List.drop_left]
  have e5 : List.drop (pre.length + 2) (calib_text pre rtxt ttxt rest) =
      rtxt ++ (tMark ++ (ttxt ++ '\n' :: rest)) := by
    rw [hs2, ← hlen2, List.drop_left]
  have e5t : List.take (pre.length + 2 + rtxt.length - (pre.length + 2))
      (rtxt ++ (tMark ++ (ttxt ++ '\n' :: rest))) = rtxt := by
    rw [show pre.length + 2 + rtxt.length - (pre.length + 2) = rtxt.length by
      omega]
    exact List.take_left rtxt _
  have e6t : List.take (pre.length + 2 + rtxt.length + 2 + ttxt.length -
      (pre.length + 2 + rtxt.length + 2)) (ttxt ++ '\n' :: rest) = ttxt := by
    rw [show pre.length + 2 + rtxt.length + 2 + ttxt.length -
      (pre.length + 2 + rtxt.length + 2) = ttxt.length by omega]
    exact List.take_left ttxt _
  rw [load_calib_file, e1]
  simp only [Option.some_bind]
  rw [e2]
  simp only [Option.some_bind]
  rw [e3, strIdx_newline ttxt rest hNl]
  simp only [Option.some_bind]
  rw [e5, e5t, hrn]
  simp only [Option.some_bind]
  rw [e6t, htn]
  simp only [Option.some_bind]
  rw [if_pos ⟨hr9, ht3⟩]

/-- Witness for claim C5 on a concrete calibration file text. -/
theorem load_calib_file_witness :
    load_calib_file (calib_text calibPreEx calibRtxtEx calibTtxtEx []) =
      some (Matrix.of fun (i j : Fin 4) =>
        if (i : ℕ) < 3 then
          if (j : ℕ) < 3 then calibRnEx.getD (3 * (i : ℕ) + (j : ℕ)) 0
          else calibTnEx.getD (i : ℕ) 0
        else if (j : ℕ) = 3 then 1 else 0) := by
  have hrn : parseNums calibRtxtEx = some calibRnEx := by
    simp +decide [parseNums, tokens, tokensAux, parseFloat, splitSign,
      digitsVal, isWsChar, calibRtxtEx, calibRnEx, List.mapM, List.mapM.loop]
  have htn : parseNums calibTtxtEx = some calibTnEx := by
    simp +decide [parseNums, tokens, tokensAux, parseFloat, splitSign,
      digitsVal, isWsChar, calibTtxtEx, calibTnEx, List.mapM, List.mapM.loop]
  exact load_calib_file_spec calibPreEx calibRtxtEx calibTtxtEx [] calibRnEx
    calibTnEx (by decide) (by decide) (by decide) hrn (by decide) htn (by decide)
